import Mathlib

/-!
Verification development for the check_gmp plugin (check_gmp.py): a shallow
embedding of its instance-manager subsystem (the Instance ledger with its
bounded-concurrency admission algorithm, the report cache with staleness
detection, the signal coordination helpers and the session termination
sequence), together with theorems settling the specification claims.

Modelling conventions:
- SQLite tables are lists of rows; every statement-plus-commit of the source
  is a pure function from tables to tables.
- created_at timestamps (datetime.now().isoformat() in the source) are Nat
  time points: ISO 8601 strings of one producer compare lexicographically in
  chronological order, so a linearly ordered time domain is faithful.
- os.kill is a function of an aliveness oracle; a dead target makes it return
  Except.error (), mirroring the OSError the real call raises.
- SQL text comparison (memcmp on the stored strings) is comparison of the
  underlying character lists.
-/

namespace CheckGmp

/-- Nagios exit statuses (source lines 62-65). -/
def NAGIOS_OK : Nat := 0

def NAGIOS_WARNING : Nat := 1

def NAGIOS_CRITICAL : Nat := 2

def NAGIOS_UNKNOWN : Nat := 3

/-! ## Signal coordination (InstanceManager.start_process / stop_process / check_pid) -/

def SIGCONT : Nat := 18

def SIGSTOP : Nat := 19

/-- Model of os.kill(pid, sig): the oracle alive tells which process ids
exist; signalling a dead pid raises OSError, modelled as Except.error (). -/
def os_kill (alive : Nat → Bool) (pid : Nat) (sig : Nat) : Except Unit Unit :=
  if alive pid then Except.ok () else Except.error ()

/-- InstanceManager.check_pid (lines 509-520): probe with signal 0 inside
try/except OSError, returning False on the exception and True otherwise. -/
def check_pid (alive : Nat → Bool) (pid : Nat) : Bool :=
  match os_kill alive pid 0 with
  | Except.error _ => false
  | Except.ok _ => true

/-- InstanceManager.start_process (lines 488-497): os.kill(pid, SIGCONT)
with no exception handler, so the OSError of a dead pid propagates. -/
def start_process (alive : Nat → Bool) (pid : Nat) : Except Unit Unit :=
  os_kill alive pid SIGCONT

/-- InstanceManager.stop_process (lines 499-507): os.kill(pid, SIGSTOP)
with no exception handler. -/
def stop_process (alive : Nat → Bool) (pid : Nat) : Except Unit Unit :=
  os_kill alive pid SIGSTOP

/-! ## The Instance ledger -/

/-- One row of the Instance table (created_at text, pid integer,
pending integer). -/
structure InstRow where
  created_at : Nat
  pid : Nat
  pending : Bool
  deriving DecidableEq, Repr

/-- A signal sent while manipulating the ledger: SIGSTOP or SIGCONT to pid. -/
inductive Sig where
  | stop (pid : Nat)
  | cont (pid : Nat)
  deriving DecidableEq, Repr

/-- InstanceManager.has_entries (lines 289-299):
SELECT count(*) FROM Instance WHERE pending=?. -/
def has_entries (t : List InstRow) (pending : Bool) : Nat :=
  (t.filter fun r => r.pending == pending).length

/-- InstanceManager.add_instance (lines 383-399): INSERT INTO Instance the
current time, the own pid and the pending flag. -/
def add_instance (t : List InstRow) (current_time : Nat) (pid : Nat)
    (pending : Bool) : List InstRow :=
  t ++ [⟨current_time, pid, pending⟩]

/-- Ordering of Instance rows by created_at, the ORDER BY key. -/
def rowLe (a b : InstRow) : Prop :=
  a.created_at ≤ b.created_at

instance : DecidableRel rowLe :=
  fun a b => Nat.decLe a.created_at b.created_at

instance : IsTotal InstRow rowLe :=
  ⟨fun a b => Nat.le_total a.created_at b.created_at⟩

instance : IsTrans InstRow rowLe :=
  ⟨fun _ _ _ h₁ h₂ => Nat.le_trans h₁ h₂⟩

/-- InstanceManager.get_oldest_pending_entries (lines 401-409):
SELECT * FROM Instance WHERE pending=1 ORDER BY created_at LIMIT number. -/
def get_oldest_pending_entries (t : List InstRow) (number : Nat) :
    List InstRow :=
  (List.insertionSort rowLe (t.filter fun r => r.pending == true)).take number

/-- InstanceManager.update_pending_status (lines 411-425):
UPDATE Instance SET pending=status WHERE created_at=date. -/
def update_pending_status (t : List InstRow) (date : Nat) (status : Bool) :
    List InstRow :=
  t.map fun r => if r.created_at == date then { r with pending := status } else r

/-- InstanceManager.delete_instance (lines 427-444):
DELETE FROM Instance WHERE pid=?. -/
def delete_instance (t : List InstRow) (pid : Nat) : List InstRow :=
  t.filter fun r => r.pid != pid

/-- InstanceManager.clean_orphaned_instances (lines 446-458): fetch all pids,
then delete every entry whose pid fails check_pid. -/
def clean_orphaned_instances (alive : Nat → Bool) (t : List InstRow) :
    List InstRow :=
  (t.map fun r => r.pid).foldl
    (fun acc pid => if check_pid alive pid then acc else delete_instance acc pid)
    t

/-- The body of the wake-up loops (lines 340-346 and 481-486): for each
fetched entry, update its pending status to False (the accompanying SIGCONT
is recorded by the callers). -/
def wake_batch : List InstRow → List InstRow → List InstRow
  | t, [] => t
  | t, e :: es => wake_batch (update_pending_status t e.created_at false) es

/-- The while loop of check_instances case 2 (lines 333-350): while fewer
than limit instances run and pending entries wait, flip a batch of oldest
pending entries and signal SIGCONT to them, then re-read both counts. The
fuel argument bounds the iteration count; callers pass the initial number of
pending entries, which the loop strictly decreases. -/
def drain_queue (limit : Nat) : Nat → List InstRow → List Sig →
    List InstRow × List Sig
  | 0, t, sigs => (t, sigs)
  | fuel + 1, t, sigs =>
    if has_entries t false < limit ∧ 0 < has_entries t true then
      drain_queue limit fuel
        (wake_batch t (get_oldest_pending_entries t (limit - has_entries t false)))
        (sigs ++ (get_oldest_pending_entries t
          (limit - has_entries t false)).map fun e => Sig.cont e.pid)
    else
      (t, sigs)

/-- InstanceManager.check_instances (lines 301-372): orphan sweep, then the
four admission cases on (number_instances, number_pending). Case 2 drains
the queue and, in the source, does NOT insert a row for the registering
invocation (the add_instance call at lines 353-355 is commented out).
Returned are the new table and the signals sent. -/
def check_instances (limit : Nat) (alive : Nat → Bool) (now : Nat)
    (pid : Nat) (t : List InstRow) : List InstRow × List Sig :=
  if has_entries (clean_orphaned_instances alive t) false < limit ∧
      has_entries (clean_orphaned_instances alive t) true = 0 then
    (add_instance (clean_orphaned_instances alive t) now pid false, [])
  else if has_entries (clean_orphaned_instances alive t) false < limit ∧
      0 < has_entries (clean_orphaned_instances alive t) true then
    drain_queue limit (has_entries (clean_orphaned_instances alive t) true)
      (clean_orphaned_instances alive t) []
  else if limit ≤ has_entries (clean_orphaned_instances alive t) false ∧
      has_entries (clean_orphaned_instances alive t) true = 0 then
    (add_instance (clean_orphaned_instances alive t) now pid true,
      [Sig.stop pid])
  else
    (add_instance (clean_orphaned_instances alive t) now pid true,
      [Sig.stop pid])

/-- InstanceManager.wake_instance (lines 460-486): a single batch of the
drain logic, run at the end of every session. -/
def wake_instance (limit : Nat) (t : List InstRow) : List InstRow × List Sig :=
  if has_entries t false < limit ∧ 0 < has_entries t true then
    (wake_batch t (get_oldest_pending_entries t (limit - has_entries t false)),
      (get_oldest_pending_entries t
        (limit - has_entries t false)).map fun e => Sig.cont e.pid)
  else
    (t, [])

/-! ## Serial operation sequences against one ledger -/

/-- One serial admission-controller operation against the shared store: a new
invocation registering (check_instances with its registration time, its pid
and the current pid-aliveness of the host), a termination-time wake, or the
deletion of an instance row. -/
inductive Op where
  | register (now : Nat) (pid : Nat) (alive : Nat → Bool)
  | wake
  | delete (pid : Nat)

/-- Effect of one operation on the ledger (limit is MAX_RUNNING_INSTANCES). -/
def step (limit : Nat) (op : Op) (t : List InstRow) : List InstRow :=
  match op with
  | Op.register now pid alive => (check_instances limit alive now pid t).1
  | Op.wake => (wake_instance limit t).1
  | Op.delete pid => delete_instance t pid

/-- Run a sequence of operations from a ledger state. -/
def run_ops (limit : Nat) (ops : List Op) (t : List InstRow) : List InstRow :=
  ops.foldl (fun acc op => step limit op acc) t

/-- The created_at column of the ledger. -/
def dates (t : List InstRow) : List Nat :=
  t.map fun r => r.created_at

/-- Freshness of the registration timestamps along a run: each register
operation carries a created_at not yet present in the ledger. The source
takes datetime.now().isoformat() with microsecond precision and uses it as
the primary key of the table (docstring of update_pending_status), so serial
registrations carry strictly increasing, hence fresh, timestamps. -/
def fresh_op : Op → List InstRow → Bool
  | Op.register now _ _, t => !((dates t).contains now)
  | _, _ => true

def fresh_ops (limit : Nat) : List Op → List InstRow → Bool
  | [], _ => true
  | op :: ops, t => fresh_op op t && fresh_ops limit ops (step limit op t)

/-! ## The Report cache -/

/-- One row of the Report table (host text, scan_end text, params_used text,
report text). -/
structure ReportRow where
  host : String
  scan_end : String
  params_used : String
  report : String
  deriving DecidableEq, Repr

/-- SQLite text comparison of two stored strings (memcmp order), as used by
the WHERE clause of delete_older_entries. -/
def text_le (a b : String) : Bool :=
  decide (a.data ≤ b.data)

/-- InstanceManager.delete_report (lines 254-260):
DELETE FROM Report WHERE host=?. -/
def delete_report (t : List ReportRow) (host : String) : List ReportRow :=
  t.filter fun r => !(r.host == host)

/-- InstanceManager.old_report (lines 169-211). The stored row for the host
is fetched (fetchone of SELECT WHERE host); absence means stale. Otherwise
the two scan_end strings are run through parse_date and compared; pd stands
for that ISO 8601 parser, which the spec scopes out as an external
collaborator, mapping a date string to its time point. Equal fingerprints
and a not-newer remote scan_end mean the report is reusable; otherwise the
stored row is deleted and staleness reported. -/
def old_report (pd : String → Nat) (t : List ReportRow) (host : String)
    (last_scan_end : String) (params_used : String) :
    Bool × List ReportRow :=
  match t.find? fun r => r.host == host with
  | none => (true, t)
  | some row =>
    if pd last_scan_end ≤ pd row.scan_end ∧ params_used = row.params_used then
      (false, t)
    else
      (true, delete_report t host)

/-- InstanceManager.delete_entry_with_ip (lines 262-273):
DELETE FROM Report WHERE host=ip, then VACUUM (the Bool records that the
VACUUM statement ran). -/
def delete_entry_with_ip (t : List ReportRow) (ip : String) :
    List ReportRow × Bool :=
  (t.filter fun r => !(r.host == ip), true)

/-- InstanceManager.delete_older_entries (lines 275-287):
DELETE FROM Report WHERE scan_end <= date(now, -days day), then VACUUM.
The cutoff argument is the date string SQLite computes for now minus the
given days; the comparison is SQLite text comparison of the stored scan_end
with that cutoff. The Bool records that the VACUUM statement ran. -/
def delete_older_entries (t : List ReportRow) (cutoff : String) :
    List ReportRow × Bool :=
  (t.filter fun r => !(text_le r.scan_end cutoff), true)

/-- The eviction the specification words describe for bulk expiry: remove
exactly the rows whose scan_end strictly predates the cutoff. Stated from
the spec for comparison with delete_older_entries. -/
def delete_older_spec (t : List ReportRow) (cutoff : String) :
    List ReportRow :=
  t.filter fun r => !(decide (r.scan_end.data < cutoff.data))

/-- Python truthiness of an optional string argument (argparse default None;
an empty string is falsy). -/
def truthy_str : Option String → Bool
  | none => false
  | some s => !(s == "")

/-- Python truthiness of an optional integer argument (argparse default
None; zero is falsy). -/
def truthy_int : Option Int → Bool
  | none => false
  | some n => !(n == 0)

/-- The clean mode of main (lines 714-722): if args.ip is truthy delete that
hosts entry, elif args.days is truthy delete entries older than the cutoff
derived from it, and in every case sys.exit(1). Returns the table after the
eviction and the exit status. -/
def clean_mode (t : List ReportRow) (ip : Option String) (days : Option Int)
    (cutoff : String) : List ReportRow × Nat :=
  if truthy_str ip then
    ((delete_entry_with_ip t (ip.getD "")).1, 1)
  else if truthy_int days then
    ((delete_older_entries t cutoff).1, 1)
  else
    (t, 1)

/-! ## Session lifecycle -/

/-- end_session (lines 1209-1232) without the process exit itself: delete the
own Instance row, wake pending instances sized to the freed capacity, close
the store. Returns the ledger and the SIGCONT signals sent. -/
def end_session (limit : Nat) (pid : Nat) (t : List InstRow) :
    List InstRow × List Sig :=
  wake_instance limit (delete_instance t pid)

/-- Behaviour of the status() call as seen from main: it ends the session
with some exit code, raises an uncaught exception, or returns without ending
the session (it does the latter when neither use_asset_management nor task
is set, lines 839 and 923). -/
inductive StatusOutcome where
  | endsSession (code : Nat)
  | raises
  | fallsThrough
  deriving DecidableEq, Repr

/-- Environment of one invocation of main after admission (lines 730-755):
whether connect succeeds, whether ping was requested and what status it
sees, whether the unguarded get_version call at line 740 succeeds, whether
authenticate succeeds, whether status was requested and how status()
behaves. -/
structure SessionEnv where
  connect_ok : Bool
  ping_flag : Bool
  ping_status200 : Bool
  get_version_ok : Bool
  auth_ok : Bool
  status_flag : Bool
  status_outcome : StatusOutcome
  deriving DecidableEq, Repr

/-- How the process left main. -/
inductive ExitKind where
  | exited (code : Nat)
  | uncaught
  | returned
  deriving DecidableEq, Repr

/-- What one run of main did after admission: how often the end_session
termination sequence ran, and how the process left. -/
structure Outcome where
  end_session_runs : Nat
  exit : ExitKind
  deriving DecidableEq, Repr

/-- The post-admission control flow of main (lines 730-755), threading the
Instance ledger: connect failure is caught and ends the session (CRITICAL);
ping always ends the session; a get_version failure at line 740 is uncaught;
an authenticate failure is caught and ends the session (CRITICAL); a
requested status() runs with its three possible behaviours; and when no
command ran, main closes the connection and returns without end_session. -/
def main_session (env : SessionEnv) (limit : Nat) (pid : Nat)
    (t : List InstRow) : Outcome × List InstRow :=
  if env.connect_ok = false then
    (⟨1, ExitKind.exited NAGIOS_CRITICAL⟩, (end_session limit pid t).1)
  else if env.ping_flag then
    if env.ping_status200 then
      (⟨1, ExitKind.exited NAGIOS_OK⟩, (end_session limit pid t).1)
    else
      (⟨1, ExitKind.exited NAGIOS_CRITICAL⟩, (end_session limit pid t).1)
  else if env.get_version_ok = false then
    (⟨0, ExitKind.uncaught⟩, t)
  else if env.auth_ok = false then
    (⟨1, ExitKind.exited NAGIOS_CRITICAL⟩, (end_session limit pid t).1)
  else if env.status_flag then
    match env.status_outcome with
    | StatusOutcome.endsSession code =>
      (⟨1, ExitKind.exited code⟩, (end_session limit pid t).1)
    | StatusOutcome.raises => (⟨0, ExitKind.uncaught⟩, t)
    | StatusOutcome.fallsThrough => (⟨0, ExitKind.returned⟩, t)
  else
    (⟨0, ExitKind.returned⟩, t)

/-! ## Ledger lemmas -/

theorem update_pending_status_cons (r : InstRow) (t : List InstRow) (d : Nat)
    (s : Bool) :
    update_pending_status (r :: t) d s =
      (if r.created_at == d then { r with pending := s } else r) ::
        update_pending_status t d s :=
  rfl

theorem dates_cons (r : InstRow) (t : List InstRow) :
    dates (r :: t) = r.created_at :: dates t :=
  rfl

theorem has_entries_cons (r : InstRow) (t : List InstRow) (b : Bool) :
    has_entries (r :: t) b =
      (if r.pending == b then 1 else 0) + has_entries t b := by
  by_cases h : r.pending == b <;>
    simp [has_entries, List.filter_cons, h] <;> omega

theorem dates_update_pending_status (t : List InstRow) (d : Nat) (s : Bool) :
    dates (update_pending_status t d s) = dates t := by
  simp only [dates, update_pending_status, List.map_map]
  apply List.map_congr_left
  intro r _
  by_cases h : r.created_at = d <;> simp [h]

theorem dates_wake_batch (es : List InstRow) :
    ∀ t : List InstRow, dates (wake_batch t es) = dates t := by
  induction es with
  | nil => intro t; rfl
  | cons e es ih =>
    intro t
    show dates (wake_batch (update_pending_status t e.created_at false) es) =
      dates t
    rw [ih, dates_update_pending_status]

theorem has_entries_update_le (t : List InstRow) (d : Nat) :
    has_entries (update_pending_status t d false) false ≤
      has_entries t false + (dates t).count d := by
  induction t with
  | nil => simp [has_entries, update_pending_status, dates]
  | cons r t ih =>
    rw [update_pending_status_cons, has_entries_cons, has_entries_cons,
      dates_cons, List.count_cons]
    by_cases hd : r.created_at = d <;> by_cases hp : r.pending <;>
      simp [hd, hp] <;> omega

theorem has_entries_wake_batch_le (es : List InstRow) :
    ∀ t : List InstRow, (dates t).Nodup →
      has_entries (wake_batch t es) false ≤ has_entries t false + es.length := by
  induction es with
  | nil => intro t _; simp [wake_batch]
  | cons e es ih =>
    intro t hnd
    have h1 := has_entries_update_le t e.created_at
    have hc : (dates t).count e.created_at ≤ 1 :=
      List.nodup_iff_count_le_one.mp hnd _
    have hnd2 : (dates (update_pending_status t e.created_at false)).Nodup := by
      rw [dates_update_pending_status]
      exact hnd
    have h2 := ih (update_pending_status t e.created_at false) hnd2
    show has_entries
        (wake_batch (update_pending_status t e.created_at false) es) false ≤
      has_entries t false + (e :: es).length
    simp only [List.length_cons]
    omega

theorem length_get_oldest_le (t : List InstRow) (n : Nat) :
    (get_oldest_pending_entries t n).length ≤ n :=
  List.length_take_le n _

theorem drain_queue_inv (limit : Nat) (fuel : Nat) :
    ∀ (t : List InstRow) (sigs : List Sig), (dates t).Nodup →
      has_entries t false ≤ limit →
      dates (drain_queue limit fuel t sigs).1 = dates t ∧
      has_entries (drain_queue limit fuel t sigs).1 false ≤ limit := by
  induction fuel with
  | zero => intro t sigs _ h2; exact ⟨rfl, h2⟩
  | succ fuel ih =>
    intro t sigs hnd hle
    simp only [drain_queue]
    by_cases hc : has_entries t false < limit ∧ 0 < has_entries t true
    · rw [if_pos hc]
      have hlen := length_get_oldest_le t (limit - has_entries t false)
      have hwb := has_entries_wake_batch_le
        (get_oldest_pending_entries t (limit - has_entries t false)) t hnd
      have hnd2 : (dates (wake_batch t
          (get_oldest_pending_entries t (limit - has_entries t false)))).Nodup := by
        rw [dates_wake_batch]
        exact hnd
      have hb : has_entries (wake_batch t
          (get_oldest_pending_entries t (limit - has_entries t false))) false ≤
          limit := by omega
      have hrec := ih (wake_batch t
          (get_oldest_pending_entries t (limit - has_entries t false)))
        (sigs ++ (get_oldest_pending_entries t
          (limit - has_entries t false)).map fun e => Sig.cont e.pid) hnd2 hb
      exact ⟨hrec.1.trans (dates_wake_batch _ t), hrec.2⟩
    · rw [if_neg hc]
      exact ⟨rfl, hle⟩

theorem clean_orphaned_foldl (alive : Nat → Bool) (ps : List Nat) :
    ∀ t : List InstRow,
      ps.foldl (fun acc pid => if check_pid alive pid then acc
        else delete_instance acc pid) t =
      t.filter fun r => ps.all fun pid => check_pid alive pid || r.pid != pid := by
  induction ps with
  | nil =>
    intro t
    simp
  | cons p ps ih =>
    intro t
    rw [List.foldl_cons]
    by_cases hp : check_pid alive p
    · rw [if_pos hp, ih]
      apply List.filter_congr
      intro r _
      simp [hp]
    · have hpf : check_pid alive p = false := by
        revert hp
        cases check_pid alive p <;> simp
      rw [if_neg hp, ih, delete_instance, List.filter_filter]
      apply List.filter_congr
      intro r _
      rw [List.all_cons, hpf, Bool.false_or, Bool.and_comm]

theorem clean_orphaned_eq_filter (alive : Nat → Bool) (t : List InstRow) :
    clean_orphaned_instances alive t =
      t.filter fun r => check_pid alive r.pid := by
  rw [clean_orphaned_instances, clean_orphaned_foldl]
  apply List.filter_congr
  intro r hr
  by_cases h : check_pid alive r.pid
  · rw [h, List.all_eq_true]
    intro p _
    by_cases hpe : r.pid = p
    · subst hpe
      simp [h]
    · simp [hpe]
  · have hf : check_pid alive r.pid = false := by
      revert h
      cases check_pid alive r.pid <;> simp
    rw [hf]
    cases hb : (t.map fun r => r.pid).all
        fun pid => check_pid alive pid || r.pid != pid with
    | false => rfl
    | true =>
      rw [List.all_eq_true] at hb
      have hcontra := hb r.pid (List.mem_map_of_mem _ hr)
      rw [hf] at hcontra
      simp at hcontra

theorem clean_orphaned_instances_true (t : List InstRow) :
    clean_orphaned_instances (fun _ => true) t = t := by
  rw [clean_orphaned_eq_filter]
  have hfun : (fun r : InstRow => check_pid (fun _ => true) r.pid) =
      fun _ => true := rfl
  rw [hfun, List.filter_true]

theorem has_entries_filter_le (q : InstRow → Bool) (t : List InstRow)
    (b : Bool) : has_entries (t.filter q) b ≤ has_entries t b :=
  List.Sublist.length_le (List.Sublist.filter _ (List.filter_sublist t))

theorem nodup_dates_filter (q : InstRow → Bool) (t : List InstRow)
    (hnd : (dates t).Nodup) : (dates (t.filter q)).Nodup :=
  List.Nodup.sublist (List.Sublist.map _ (List.filter_sublist t)) hnd

theorem not_mem_dates_filter (q : InstRow → Bool) (t : List InstRow)
    (now : Nat) (h : now ∉ dates t) : now ∉ dates (t.filter q) :=
  fun hm => h (List.Sublist.subset (List.Sublist.map _ (List.filter_sublist t)) hm)

theorem dates_append_one (t : List InstRow) (r : InstRow) :
    dates (t ++ [r]) = dates t ++ [r.created_at] := by
  simp [dates]

theorem has_entries_append_one (t : List InstRow) (r : InstRow) (b : Bool) :
    has_entries (t ++ [r]) b =
      has_entries t b + (if r.pending == b then 1 else 0) := by
  by_cases h : r.pending == b <;>
    simp [has_entries, List.filter_append, List.filter_cons, h]

theorem nodup_dates_add_instance (t : List InstRow) (now pid : Nat) (b : Bool)
    (hnd : (dates t).Nodup) (hfresh : now ∉ dates t) :
    (dates (add_instance t now pid b)).Nodup := by
  rw [add_instance, dates_append_one]
  refine List.Nodup.append hnd (List.nodup_singleton _) ?_
  intro a ha hb
  simp only [List.mem_singleton] at hb
  subst hb
  exact hfresh ha

theorem check_instances_inv (limit : Nat) (alive : Nat → Bool) (now pid : Nat)
    (t : List InstRow) (hnd : (dates t).Nodup) (hfresh : now ∉ dates t)
    (hle : has_entries t false ≤ limit) :
    (dates (check_instances limit alive now pid t).1).Nodup ∧
    has_entries (check_instances limit alive now pid t).1 false ≤ limit := by
  have hnd0 : (dates (clean_orphaned_instances alive t)).Nodup := by
    rw [clean_orphaned_eq_filter]
    exact nodup_dates_filter _ t hnd
  have hfresh0 : now ∉ dates (clean_orphaned_instances alive t) := by
    rw [clean_orphaned_eq_filter]
    exact not_mem_dates_filter _ t now hfresh
  have hle0 : has_entries (clean_orphaned_instances alive t) false ≤ limit := by
    rw [clean_orphaned_eq_filter]
    exact le_trans (has_entries_filter_le _ t false) hle
  simp only [check_instances]
  by_cases h1 : has_entries (clean_orphaned_instances alive t) false < limit ∧
      has_entries (clean_orphaned_instances alive t) true = 0
  · rw [if_pos h1]
    refine ⟨nodup_dates_add_instance _ now pid false hnd0 hfresh0, ?_⟩
    rw [add_instance, has_entries_append_one]
    simp
    omega
  · rw [if_neg h1]
    by_cases h2 : has_entries (clean_orphaned_instances alive t) false < limit ∧
        0 < has_entries (clean_orphaned_instances alive t) true
    · rw [if_pos h2]
      have hdrain := drain_queue_inv limit
        (has_entries (clean_orphaned_instances alive t) true)
        (clean_orphaned_instances alive t) [] hnd0 hle0
      refine ⟨?_, hdrain.2⟩
      rw [hdrain.1]
      exact hnd0
    · rw [if_neg h2]
      by_cases h3 : limit ≤ has_entries (clean_orphaned_instances alive t) false ∧
          has_entries (clean_orphaned_instances alive t) true = 0
      · rw [if_pos h3]
        refine ⟨nodup_dates_add_instance _ now pid true hnd0 hfresh0, ?_⟩
        rw [add_instance, has_entries_append_one]
        simp
        omega
      · rw [if_neg h3]
        refine ⟨nodup_dates_add_instance _ now pid true hnd0 hfresh0, ?_⟩
        rw [add_instance, has_entries_append_one]
        simp
        omega

theorem wake_instance_inv (limit : Nat) (t : List InstRow)
    (hnd : (dates t).Nodup) (hle : has_entries t false ≤ limit) :
    (dates (wake_instance limit t).1).Nodup ∧
    has_entries (wake_instance limit t).1 false ≤ limit := by
  simp only [wake_instance]
  by_cases hc : has_entries t false < limit ∧ 0 < has_entries t true
  · rw [if_pos hc]
    dsimp only
    have hlen := length_get_oldest_le t (limit - has_entries t false)
    have hwb := has_entries_wake_batch_le
      (get_oldest_pending_entries t (limit - has_entries t false)) t hnd
    refine ⟨?_, by omega⟩
    rw [dates_wake_batch]
    exact hnd
  · rw [if_neg hc]
    exact ⟨hnd, hle⟩

theorem step_inv (limit : Nat) (op : Op) (t : List InstRow)
    (hnd : (dates t).Nodup) (hle : has_entries t false ≤ limit)
    (hfresh : fresh_op op t = true) :
    (dates (step limit op t)).Nodup ∧
    has_entries (step limit op t) false ≤ limit := by
  cases op with
  | register now pid alive =>
    have hf : now ∉ dates t := by simpa [fresh_op] using hfresh
    exact check_instances_inv limit alive now pid t hnd hf hle
  | wake => exact wake_instance_inv limit t hnd hle
  | delete pid =>
    exact ⟨nodup_dates_filter _ t hnd,
      le_trans (has_entries_filter_le _ t false) hle⟩

theorem run_ops_inv (limit : Nat) (ops : List Op) :
    ∀ t : List InstRow, (dates t).Nodup → has_entries t false ≤ limit →
      fresh_ops limit ops t = true →
      (dates (run_ops limit ops t)).Nodup ∧
      has_entries (run_ops limit ops t) false ≤ limit := by
  induction ops with
  | nil =>
    intro t h1 h2 _
    exact ⟨h1, h2⟩
  | cons op ops ih =>
    intro t h1 h2 hf
    rw [fresh_ops, Bool.and_eq_true] at hf
    have hstep := step_inv limit op t h1 h2 hf.1
    have hrw : run_ops limit (op :: ops) t = run_ops limit ops (step limit op t) :=
      rfl
    rw [hrw]
    exact ih (step limit op t) hstep.1 hstep.2 hf.2

/-- C1: for every serial sequence of admission-controller operations
(register via check_instances, which performs add_instance internally,
wake_instance, delete_instance) against one store with concurrency limit L,
started from the empty ledger and with fresh created_at stamps on
registrations (created_at is the primary key of the Instance table), at most
L Instance rows have pending=false at any point: every reachable state is
run_ops of some prefix, and all of them satisfy the bound. -/
theorem c1_concurrency_bound (limit : Nat) (ops : List Op)
    (h : fresh_ops limit ops [] = true) :
    has_entries (run_ops limit ops []) false ≤ limit :=
  (run_ops_inv limit ops [] (by simp [dates]) (by simp [has_entries]) h).2

/-- A serial demonstration run: two registrations racing for one slot, a
termination-time wake, a deregistration and a re-registration. -/
def c1_demo_ops : List Op :=
  [Op.register 1 100 (fun _ => true), Op.register 2 101 (fun _ => true),
   Op.wake, Op.delete 100, Op.register 3 102 (fun _ => true)]

theorem c1_concurrency_bound_witness :
    fresh_ops 1 c1_demo_ops [] = true ∧
    has_entries (run_ops 1 c1_demo_ops []) false ≤ 1 :=
  ⟨by decide, c1_concurrency_bound 1 c1_demo_ops (by decide)⟩

/-- A ledger at the failing input of claim C3: one running row, one queued
row, limit two, every process alive. -/
def c3_tbl : List InstRow :=
  [⟨1, 10, false⟩, ⟨2, 20, true⟩]

/-- C3: refuted by evaluation. At a state with active_count below the limit
and a nonempty queue (case 2), check_instances drains the queue (the queued
row with created_at 2 and pid 20 is flipped to pending=false and signalled
SIGCONT) but then does NOT insert an Instance row for the registering
invocation (pid 99): the add_instance call of the source is commented out
(lines 352-355), so the invocation proceeds unrecorded, contrary to the
claim and to the class docstring bounding simultaneous instances. -/
theorem c3_case2_drops_self_insert :
    has_entries (clean_orphaned_instances (fun _ => true) c3_tbl) false < 2 ∧
    0 < has_entries (clean_orphaned_instances (fun _ => true) c3_tbl) true ∧
    check_instances 2 (fun _ => true) 5 99 c3_tbl =
      ([⟨1, 10, false⟩, ⟨2, 20, false⟩], [Sig.cont 20]) ∧
    ∀ r ∈ (check_instances 2 (fun _ => true) 5 99 c3_tbl).1, r.pid ≠ 99 := by
  decide

/-- C4: whenever the post-sweep active count has reached the limit (cases 3
and 4 of check_instances, with any queue length), the registering invocation
inserts its own row with pending=true and sends SIGSTOP to its own pid. -/
theorem c4_full_capacity_queues_and_stops (limit : Nat) (alive : Nat → Bool)
    (now pid : Nat) (t : List InstRow)
    (h : limit ≤ has_entries (clean_orphaned_instances alive t) false) :
    check_instances limit alive now pid t =
      (add_instance (clean_orphaned_instances alive t) now pid true,
        [Sig.stop pid]) := by
  have hn : ¬ (has_entries (clean_orphaned_instances alive t) false < limit) :=
    Nat.not_lt.mpr h
  simp only [check_instances]
  rw [if_neg (fun hc => hn hc.1), if_neg (fun hc => hn hc.1)]
  by_cases h3 : limit ≤ has_entries (clean_orphaned_instances alive t) false ∧
      has_entries (clean_orphaned_instances alive t) true = 0
  · rw [if_pos h3]
  · rw [if_neg h3]

/-- A full ledger for the C4 witness: one running row at limit one. -/
def c4_tbl : List InstRow :=
  [⟨1, 10, false⟩]

theorem c4_full_capacity_queues_and_stops_witness :
    1 ≤ has_entries (clean_orphaned_instances (fun _ => true) c4_tbl) false ∧
    check_instances 1 (fun _ => true) 5 7 c4_tbl =
      (add_instance (clean_orphaned_instances (fun _ => true) c4_tbl) 5 7 true,
        [Sig.stop 7]) :=
  ⟨by decide,
    c4_full_capacity_queues_and_stops 1 (fun _ => true) 5 7 c4_tbl (by decide)⟩

/-- C5: the rows selected for waking are always those with the earliest
created_at values. Every row returned by get_oldest_pending_entries (used by
both the case-2 drain of check_instances and by wake_instance) is a pending
row of the table whose created_at is at most that of every pending row left
unselected; and when wake_instance wakes (active below limit, queue
nonempty) it resumes exactly the pids of that selection. -/
theorem c5_oldest_selected_first (limit n : Nat) (t : List InstRow) :
    (∀ x ∈ get_oldest_pending_entries t n,
      x ∈ t ∧ x.pending = true ∧
        ∀ y ∈ t, y.pending = true → y ∉ get_oldest_pending_entries t n →
          x.created_at ≤ y.created_at) ∧
    (has_entries t false < limit → 0 < has_entries t true →
      (wake_instance limit t).2 =
        (get_oldest_pending_entries t
          (limit - has_entries t false)).map fun e => Sig.cont e.pid) := by
  constructor
  · intro x hx
    have hsort : List.Sorted rowLe
        (List.insertionSort rowLe (t.filter fun r => r.pending == true)) :=
      List.sorted_insertionSort rowLe _
    have hperm : (List.insertionSort rowLe
        (t.filter fun r => r.pending == true)).Perm
        (t.filter fun r => r.pending == true) :=
      List.perm_insertionSort rowLe _
    have hxs : x ∈ List.insertionSort rowLe
        (t.filter fun r => r.pending == true) :=
      List.mem_of_mem_take hx
    have hxf : x ∈ t.filter fun r => r.pending == true := hperm.mem_iff.mp hxs
    rw [List.mem_filter] at hxf
    refine ⟨hxf.1, by simpa using hxf.2, ?_⟩
    intro y hy hyp hyn
    have hyf : y ∈ t.filter fun r => r.pending == true := by
      rw [List.mem_filter]
      exact ⟨hy, by simp [hyp]⟩
    have hys : y ∈ List.insertionSort rowLe
        (t.filter fun r => r.pending == true) :=
      hperm.mem_iff.mpr hyf
    have hsplit := List.take_append_drop n
      (List.insertionSort rowLe (t.filter fun r => r.pending == true))
    have hyd : y ∈ (List.insertionSort rowLe
        (t.filter fun r => r.pending == true)).drop n := by
      rcases List.mem_append.mp (show y ∈ _ ++ _ by rw [hsplit]; exact hys)
        with h | h
      · exact absurd h hyn
      · exact h
    exact hsort.rel_of_mem_take_of_mem_drop hx hyd
  · intro h1 h2
    rw [wake_instance, if_pos ⟨h1, h2⟩]

/-- A ledger for the C5 witness: two queued rows out of creation order in
the table, one running row. -/
def c5_tbl : List InstRow :=
  [⟨3, 30, true⟩, ⟨1, 10, true⟩, ⟨2, 20, false⟩]

theorem c5_oldest_selected_first_witness :
    (⟨1, 10, true⟩ : InstRow).created_at ≤
      (⟨3, 30, true⟩ : InstRow).created_at ∧
    (wake_instance 2 c5_tbl).2 = [Sig.cont 10] := by
  constructor
  · exact (((c5_oldest_selected_first 2 1 c5_tbl).1 ⟨1, 10, true⟩
      (by decide)).2.2) ⟨3, 30, true⟩ (by decide) (by decide) (by decide)
  · have h := (c5_oldest_selected_first 2 1 c5_tbl).2 (by decide) (by decide)
    rw [h]
    decide

/-- C6: register() begins with the orphan sweep. The sweep keeps exactly the
rows whose recorded pid is still alive (whatever their pending value), and
check_instances behaves as the pure admission decision applied to the swept
table: the counts it acts on are read only after the sweep. -/
theorem c6_orphan_sweep_first (limit : Nat) (alive : Nat → Bool)
    (now pid : Nat) (t : List InstRow) :
    clean_orphaned_instances alive t =
      (t.filter fun r => check_pid alive r.pid) ∧
    check_instances limit alive now pid t =
      check_instances limit (fun _ => true) now pid
        (clean_orphaned_instances alive t) := by
  refine ⟨clean_orphaned_eq_filter alive t, ?_⟩
  simp only [check_instances, clean_orphaned_instances_true]

/-! ## Report cache claims -/

/-- C2: the staleness check. With no stored row for the host it reports
stale and touches nothing. With a stored row it reports fresh and leaves the
table unchanged exactly when the requested scan_end parses to a time point
not later than the stored one AND the parameter fingerprints are equal; in
every other case it deletes the stored row and reports stale. Quantified
over the date parser pd, the external ISO 8601 collaborator. -/
theorem c2_staleness_cases (pd : String → Nat) (t : List ReportRow)
    (host last_scan_end params_used : String) :
    (t.find? (fun r => r.host == host) = none →
      old_report pd t host last_scan_end params_used = (true, t)) ∧
    (∀ row, t.find? (fun r => r.host == host) = some row →
      ((old_report pd t host last_scan_end params_used = (false, t)) ↔
        (pd last_scan_end ≤ pd row.scan_end ∧
          params_used = row.params_used)) ∧
      (¬ (pd last_scan_end ≤ pd row.scan_end ∧
          params_used = row.params_used) →
        old_report pd t host last_scan_end params_used =
          (true, delete_report t host))) := by
  constructor
  · intro h
    simp only [old_report, h]
  · intro row h
    simp only [old_report, h]
    by_cases hc : pd last_scan_end ≤ pd row.scan_end ∧
        params_used = row.params_used
    · rw [if_pos hc]
      exact ⟨⟨fun _ => hc, fun _ => rfl⟩, fun hn => absurd hc hn⟩
    · rw [if_neg hc]
      exact ⟨⟨fun heq => Bool.noConfusion (congrArg Prod.fst heq),
        fun hcond => absurd hcond hc⟩, fun _ => rfl⟩

/-- A one-row report cache for the C2 witness. -/
def c2_tbl : List ReportRow :=
  [⟨"10.0.0.5", "2024", "f", "payload"⟩]

theorem c2_staleness_cases_witness :
    c2_tbl.find? (fun r => r.host == "10.0.0.5") =
      some ⟨"10.0.0.5", "2024", "f", "payload"⟩ ∧
    old_report (fun _ => 0) c2_tbl "10.0.0.5" "2024" "f" = (false, c2_tbl) := by
  refine ⟨by decide, ?_⟩
  exact ((c2_staleness_cases (fun _ => 0) c2_tbl "10.0.0.5" "2024" "f").2
    ⟨"10.0.0.5", "2024", "f", "payload"⟩ (by decide)).1.mpr ⟨Nat.le_refl 0, rfl⟩

/-- C9 counterexample: a stored row whose scan_end is exactly the cutoff
date string does not predate the cutoff, yet delete_older_entries removes it
(the WHERE clause compares with less-or-equal), while the deletion the
specification words describe keeps it. -/
theorem c9_boundary_deleted :
    (delete_older_entries [⟨"h", "2024-09-11", "f", "x"⟩] "2024-09-11").1 =
      [] ∧
    delete_older_spec [⟨"h", "2024-09-11", "f", "x"⟩] "2024-09-11" =
      [⟨"h", "2024-09-11", "f", "x"⟩] := by
  decide

/-- C9 amended: bulk eviction deletes exactly the Report rows whose
scan_end compares less-or-equal (SQLite text order) to the cutoff date
string for now minus the retention days, keeps every other row, and runs
VACUUM afterwards. -/
theorem c9_le_cutoff_deleted_vacuumed (t : List ReportRow) (cutoff : String) :
    (delete_older_entries t cutoff).2 = true ∧
    ∀ r, r ∈ (delete_older_entries t cutoff).1 ↔
      (r ∈ t ∧ text_le r.scan_end cutoff = false) := by
  refine ⟨rfl, ?_⟩
  intro r
  simp [delete_older_entries, List.mem_filter]

/-- C10 counterexample: with the clean flag and the days option given as
zero, no eviction happens (Python truthiness treats 0 like an absent
option) although the eviction routine would have removed the old row; the
exit status is still 1. -/
theorem c10_days_zero_no_eviction :
    clean_mode [⟨"h", "1999-01-01", "f", "x"⟩] none (some 0) "2024-01-01" =
      ([⟨"h", "1999-01-01", "f", "x"⟩], 1) ∧
    (delete_older_entries [⟨"h", "1999-01-01", "f", "x"⟩] "2024-01-01").1 =
      [] := by
  decide

/-- C10 amended: in clean mode the program always exits with status 1, and
it evicts one hosts entry when the ip option is truthy (given and
nonempty), evicts by age when the ip option is not truthy and the days
option is truthy (given and nonzero), and evicts nothing otherwise. -/
theorem c10_clean_mode_behavior (t : List ReportRow) (ip : Option String)
    (days : Option Int) (cutoff : String) :
    (clean_mode t ip days cutoff).2 = 1 ∧
    (truthy_str ip = true →
      (clean_mode t ip days cutoff).1 =
        (delete_entry_with_ip t (ip.getD "")).1) ∧
    (truthy_str ip = false → truthy_int days = true →
      (clean_mode t ip days cutoff).1 = (delete_older_entries t cutoff).1) ∧
    (truthy_str ip = false → truthy_int days = false →
      (clean_mode t ip days cutoff).1 = t) := by
  refine ⟨?_, ?_, ?_, ?_⟩
  · rw [clean_mode]
    split
    · rfl
    · split
      · rfl
      · rfl
  · intro hip
    rw [clean_mode, if_pos hip]
  · intro hip hdays
    rw [clean_mode, if_neg (by simp [hip]), if_pos hdays]
  · intro hip hdays
    rw [clean_mode, if_neg (by simp [hip]), if_neg (by simp [hdays])]

/-- A two-host report cache for the C10 witness. -/
def c10_tbl : List ReportRow :=
  [⟨"1.2.3.4", "2020-01-01", "f", "x"⟩, ⟨"5.6.7.8", "2020-01-01", "f", "y"⟩]

theorem c10_clean_mode_behavior_witness :
    (clean_mode c10_tbl (some "1.2.3.4") none "2024-01-01").2 = 1 ∧
    truthy_str (some "1.2.3.4") = true ∧
    (clean_mode c10_tbl (some "1.2.3.4") none "2024-01-01").1 =
      (delete_entry_with_ip c10_tbl ((some "1.2.3.4").getD "")).1 :=
  ⟨(c10_clean_mode_behavior c10_tbl (some "1.2.3.4") none "2024-01-01").1,
    by decide,
    (c10_clean_mode_behavior c10_tbl (some "1.2.3.4") none
      "2024-01-01").2.1 (by decide)⟩

/-! ## Signal coordination claims -/

/-- C8 counterexample: for a pid whose process has exited, the liveness
probe does return false, but sending a continue or stop signal is not a
no-op: start_process and stop_process run os.kill outside any handler, so
the OSError (modelled as Except.error) propagates. -/
theorem c8_dead_pid_signal_errors :
    check_pid (fun _ => false) 42 = false ∧
    start_process (fun _ => false) 42 = Except.error () ∧
    stop_process (fun _ => false) 42 = Except.error () :=
  ⟨rfl, rfl, rfl⟩

/-- C8 amended: for every pid whose target process has already exited, the
liveness probe returns false rather than raising, while sending a stop or
continue signal to such a pid raises the OSError of os.kill (is an error,
not a no-op). -/
theorem c8_probe_false_signal_error (alive : Nat → Bool) (pid : Nat)
    (h : alive pid = false) :
    check_pid alive pid = false ∧
    start_process alive pid = Except.error () ∧
    stop_process alive pid = Except.error () := by
  simp [check_pid, start_process, stop_process, os_kill, h]

theorem c8_probe_false_signal_error_witness :
    (fun _ : Nat => false) 42 = false ∧
    check_pid (fun _ => false) 42 = false ∧
    start_process (fun _ => false) 42 = Except.error () ∧
    stop_process (fun _ => false) 42 = Except.error () :=
  ⟨rfl, (c8_probe_false_signal_error (fun _ => false) 42 rfl).1,
    (c8_probe_false_signal_error (fun _ => false) 42 rfl).2.1,
    (c8_probe_false_signal_error (fun _ => false) 42 rfl).2.2⟩

/-! ## Session lifecycle claim -/

/-- Environment of the no-command invocation: connect, version fetch and
authentication succeed, neither ping nor status was requested. -/
def c7_env : SessionEnv :=
  ⟨true, false, true, true, true, false, StatusOutcome.fallsThrough⟩

/-- Environment of the uncaught-exception invocation: the unguarded
get_version call at line 740 fails. -/
def c7_env_raise : SessionEnv :=
  ⟨true, false, true, false, true, true, StatusOutcome.endsSession 0⟩

/-- C7: refuted by evaluation. Two exit paths of main terminate the process
without ever running the end_session sequence (delete own row, wake, close):
the plain invocation that requested neither ping nor status returns from
main normally, and an invocation where the unguarded get_version call raises
leaves main by an uncaught exception. In both outcomes end_session ran zero
times, not exactly once, and the Instance row of the invocation (pid 99) is
left in the ledger. -/
theorem c7_exit_paths_skip_end_session :
    main_session c7_env 10 99 [⟨1, 99, false⟩] =
      (⟨0, ExitKind.returned⟩, [⟨1, 99, false⟩]) ∧
    main_session c7_env_raise 10 99 [⟨1, 99, false⟩] =
      (⟨0, ExitKind.uncaught⟩, [⟨1, 99, false⟩]) := by
  decide

end CheckGmp
